import Mathlib

/-!
Verification development for the zero-shot CLIP emotion classifier notebook
(`notebooks/zero_shot_emotion_webcam.ipynb`).

The notebook builds, per label, an ensembled text embedding
(`zeroshot_classifier`): every template is rendered with the label via
Python's `str.format`, each rendered text is encoded by the CLIP text
encoder, each raw embedding is L2-normalized, the normalized embeddings are
averaged, and the average is L2-normalized again; the per-label vectors are
stacked as the columns of the zero-shot weight matrix.  Two stream loops
(webcam and prerecorded video) then classify frames: encode the image,
L2-normalize, take dot products with every column scaled by 100, softmax,
and select the top entry with `topk(1)`.

Modelling choices:
* floating point arithmetic is modelled over the reals;
* the CLIP text and image encoders are opaque collaborator parameters
  (`encode_text`, image `encode`), as the spec treats them;
* a prompt template string with `\x7b\x7d` slots is represented by the list
  of its literal segments between the slots (`Template`), so a template
  with k slots has k+1 segments; Python's `format` with one positional
  argument substitutes the argument for the single slot, leaves a zero-slot
  template unchanged, and raises IndexError when a second slot is reached;
* an uncaught Python exception is an `Except.error`;
* `cap.read()` returning `ret = False` (end of stream) is modelled by the
  end of the list of frames the source yields.
-/

namespace ZeroShot

/-- An embedding vector of dimension d, real-valued (floats as reals). -/
abbrev EVec (d : ℕ) := Fin d → ℝ

/-- The L2 (Euclidean) norm used by `tensor.norm()` in the notebook. -/
noncomputable def l2norm {d : ℕ} (v : EVec d) : ℝ :=
  Real.sqrt (∑ i, v i ^ 2)

/-- Division of a vector by its own L2 norm, the notebook's
`x /= x.norm()` step. No guard against a zero norm, as in the source. -/
noncomputable def normalize {d : ℕ} (v : EVec d) : EVec d :=
  fun i => v i / l2norm v

/-- Dot product, the `@` contraction of the image feature row with one
column of the zero-shot weight matrix. -/
def dotp {d : ℕ} (v w : EVec d) : ℝ := ∑ i, v i * w i

/-- Elementwise arithmetic mean of a list of vectors, the notebook's
`class_embeddings.mean(dim=0)`. -/
noncomputable def vecMean {d : ℕ} (vs : List (EVec d)) : EVec d :=
  fun i => (vs.map (fun v => v i)).sum / (vs.length : ℝ)

/-- A prompt template: the list of literal string segments surrounding its
substitution slots, so a template with k slots is a list of k+1 segments
(the notebook's templates all have exactly one slot, hence two segments). -/
abbrev Template := List String

/-- Number of substitution slots of a template. -/
def slotCount (t : Template) : ℕ := t.length - 1

/-- The error raised by Python's `str.format` when a replacement index is
out of range (more slots than positional arguments). -/
inductive FormatError where
  | indexError
deriving DecidableEq

/-- Python's `template.format(arg)` with a single positional argument,
restricted to auto-numbered slots: a zero-slot template is returned
unchanged, a one-slot template has the argument substituted, and a second
slot raises IndexError. -/
def pyFormat (t : Template) (arg : String) : Except FormatError String :=
  match t with
  | [] => Except.ok ""
  | [s] => Except.ok s
  | [s₁, s₂] => Except.ok (s₁ ++ arg ++ s₂)
  | _ => Except.error FormatError.indexError

/-- Sequential effectful map over a list in the `Except` monad: process the
elements in order and abort at the first exception, as a Python `for` loop
building a list does. -/
def mapExcept {ε α β : Type} (f : α → Except ε β) : List α → Except ε (List β)
  | [] => Except.ok []
  | a :: l =>
    match f a with
    | Except.error e => Except.error e
    | Except.ok b =>
      match mapExcept f l with
      | Except.error e => Except.error e
      | Except.ok bs => Except.ok (b :: bs)

/-- Render every template with one classname:
`texts = [template.format(classname) for template in templates]`. -/
def renderAll (templates : List Template) (classname : String) :
    Except FormatError (List String) :=
  mapExcept (fun t => pyFormat t classname) templates

/-- The per-label ensembling of the notebook: encode every rendered text,
normalize each raw embedding, take the elementwise mean, normalize again. -/
noncomputable def classEmbedding {d : ℕ} (encode_text : String → EVec d)
    (texts : List String) : EVec d :=
  normalize (vecMean (texts.map (fun s => normalize (encode_text s))))

/-- One iteration of the loop body of `zeroshot_classifier` for a single
classname: render the templates, then ensemble the text embeddings. -/
noncomputable def buildOne {d : ℕ} (encode_text : String → EVec d)
    (templates : List Template) (classname : String) :
    Except FormatError (EVec d) :=
  (renderAll templates classname).map (classEmbedding encode_text)

/-- The notebook's `zeroshot_classifier(classnames, templates)`: one
ensembled embedding per classname, in classname order; the result list is
the list of columns of the stacked `zeroshot_weights` matrix
(`torch.stack(zeroshot_weights, dim=1)` makes entry i the i-th column). -/
noncomputable def zeroshot_classifier {d : ℕ} (encode_text : String → EVec d)
    (classnames : List String) (templates : List Template) :
    Except FormatError (List (EVec d)) :=
  mapExcept (buildOne encode_text templates) classnames

/-- Softmax over a list of scores, `logits.softmax(dim=-1)`. -/
noncomputable def softmax (xs : List ℝ) : List ℝ :=
  xs.map (fun x => Real.exp x / (xs.map Real.exp).sum)

/-- Index of a maximal element of a list of reals, modelling the index
`topk(1)` returns. PyTorch does not document which index `topk` selects
among exactly equal values, so this model fixes one concrete choice (the
earliest maximal index); every property proved about the classifier below
uses only that the selected index is in range and attains the maximum,
which holds for any maximal-index selection. -/
noncomputable def idxOfMax : List ℝ → ℕ
  | [] => 0
  | [_] => 0
  | a :: b :: rest =>
    if (b :: rest).getD (idxOfMax (b :: rest)) 0 ≤ a then 0
    else idxOfMax (b :: rest) + 1

/-- The per-frame probability distribution of the stream loops: normalize
the image features, dot with every column of the weight matrix, scale by
the fixed temperature 100, softmax. -/
noncomputable def frameProbabilities {d : ℕ} (W : List (EVec d))
    (imageFeatures : EVec d) : List ℝ :=
  softmax (W.map (fun w => 100 * dotp (normalize imageFeatures) w))

/-- The pure per-frame decision of both stream loops: the `topk(1)` pair
(top label index, top probability) over `frameProbabilities`. -/
noncomputable def classifyCore {d : ℕ} (W : List (EVec d))
    (imageFeatures : EVec d) : ℕ × ℝ :=
  (idxOfMax (frameProbabilities W imageFeatures),
   (frameProbabilities W imageFeatures).getD
     (idxOfMax (frameProbabilities W imageFeatures)) 0)

/-- A raw video frame: height × width grid of BGR pixel values. -/
abbrev Img (h w : ℕ) := Fin h → Fin w → ℕ × ℕ × ℕ

/-- Horizontal flip around the vertical axis, `cv2.flip(frame, 1)`:
column c becomes column w - 1 - c. -/
def hflip {h w : ℕ} (img : Img h w) : Img h w :=
  fun r c => img r c.rev

/-- Failure of the image-encoding collaborator for one frame (the spec's
EmbeddingUnavailable: encoder unreachable or malformed output). -/
inductive EncodeError where
  | embeddingUnavailable
deriving DecidableEq

/-- One frame step shared by both loops: preprocessing plus
`model.encode_image` folded into the opaque fallible collaborator
`encode`, followed by the pure classification of the features. -/
noncomputable def frameStep {d h w : ℕ}
    (encode : Img h w → Except EncodeError (EVec d)) (W : List (EVec d))
    (img : Img h w) : Except EncodeError (ℕ × ℝ) :=
  (encode img).map (classifyCore W)

/-- Observable outcome of a stream loop: the classification results
rendered in order, the number of per-frame classification attempts, and
the uncaught exception that terminated the loop, if any. -/
structure LoopOutcome where
  processed : List (ℕ × ℝ)
  calls : ℕ
  failure : Option EncodeError

/-- The `while` loop of the notebook: read a frame (`ret = False`, i.e.
the end of the frame list, breaks the loop normally), classify it, render,
continue; an exception raised while classifying a frame aborts the loop at
that frame (the notebook has no per-frame exception handler — the `try`
block's only suffix is the `finally` releasing the capture). -/
def runStreamLoop {h w : ℕ}
    (classify : Img h w → Except EncodeError (ℕ × ℝ)) :
    List (Img h w) → LoopOutcome
  | [] => ⟨[], 0, none⟩
  | f :: rest =>
    match classify f with
    | Except.error e => ⟨[], 1, some e⟩
    | Except.ok r =>
      let o := runStreamLoop classify rest
      ⟨r :: o.processed, o.calls + 1, o.failure⟩

/-- The webcam loop: each captured frame is horizontally flipped before
preprocessing and encoding. -/
noncomputable def webcamLoop {d h w : ℕ}
    (encode : Img h w → Except EncodeError (EVec d)) (W : List (EVec d))
    (frames : List (Img h w)) : LoopOutcome :=
  runStreamLoop (fun f => frameStep encode W (hflip f)) frames

/-- The prerecorded-video loop: identical to the webcam loop except that
the frame is not flipped. -/
noncomputable def videoLoop {d h w : ℕ}
    (encode : Img h w → Except EncodeError (EVec d)) (W : List (EVec d))
    (frames : List (Img h w)) : LoopOutcome :=
  runStreamLoop (fun f => frameStep encode W f) frames

/-! Helper lemmas about norms and normalization. -/

theorem sum_sq_pos {d : ℕ} {v : EVec d} (hv : v ≠ 0) : 0 < ∑ i, v i ^ 2 := by
  have hex : ∃ i, v i ≠ 0 := by
    by_contra h
    push_neg at h
    exact hv (funext fun i => h i)
  obtain ⟨i, hi⟩ := hex
  exact Finset.sum_pos' (fun j _ => sq_nonneg _)
    ⟨i, Finset.mem_univ i, lt_of_le_of_ne (sq_nonneg _) (Ne.symm (pow_ne_zero 2 hi))⟩

theorem l2norm_pos {d : ℕ} {v : EVec d} (hv : v ≠ 0) : 0 < l2norm v :=
  Real.sqrt_pos.mpr (sum_sq_pos hv)

theorem l2norm_div_const {d : ℕ} (v : EVec d) (c : ℝ) (hc : 0 ≤ c) :
    l2norm (fun i => v i / c) = l2norm v / c := by
  simp only [l2norm, div_pow]
  rw [← Finset.sum_div, Real.sqrt_div (Finset.sum_nonneg fun i _ => sq_nonneg _),
    Real.sqrt_sq hc]

theorem l2norm_normalize {d : ℕ} {v : EVec d} (hv : v ≠ 0) :
    l2norm (normalize v) = 1 := by
  have hn := l2norm_pos hv
  have hdef : normalize v = fun i => v i / l2norm v := rfl
  rw [hdef, l2norm_div_const v _ hn.le, div_self (ne_of_gt hn)]

theorem l2norm_zero_vec {d : ℕ} : l2norm (0 : EVec d) = 0 := by
  simp [l2norm]

/-! Helper lemmas about `mapExcept`. -/

theorem mapExcept_ok_length {ε α β : Type} (f : α → Except ε β) :
    ∀ (l : List α) (ys : List β), mapExcept f l = Except.ok ys →
      ys.length = l.length := by
  intro l
  induction l with
  | nil =>
    intro ys h
    simp only [mapExcept, Except.ok.injEq] at h
    simp [← h]
  | cons a l ih =>
    intro ys h
    cases hfa : f a with
    | error e => simp [mapExcept, hfa] at h
    | ok b =>
      cases hml : mapExcept f l with
      | error e => simp [mapExcept, hfa, hml] at h
      | ok bs =>
        simp only [mapExcept, hfa, hml, Except.ok.injEq] at h
        simp [← h, ih bs hml]

theorem mapExcept_ok_getD {ε α β : Type} (f : α → Except ε β) :
    ∀ (l : List α) (ys : List β), mapExcept f l = Except.ok ys →
      ∀ (i : ℕ), i < l.length → ∀ (a : α) (b : β),
        f (l.getD i a) = Except.ok (ys.getD i b) := by
  intro l
  induction l with
  | nil =>
    intro ys h i hi
    simp at hi
  | cons x l ih =>
    intro ys h i hi a b
    cases hfx : f x with
    | error e => simp [mapExcept, hfx] at h
    | ok y =>
      cases hml : mapExcept f l with
      | error e => simp [mapExcept, hfx, hml] at h
      | ok bs =>
        simp only [mapExcept, hfx, hml, Except.ok.injEq] at h
        subst h
        cases i with
        | zero => simpa using hfx
        | succ n =>
          simp only [List.getD_cons_succ]
          exact ih bs hml n (Nat.lt_of_succ_lt_succ hi) a b

theorem mapExcept_ok_mem {ε α β : Type} (f : α → Except ε β) :
    ∀ (l : List α) (ys : List β), mapExcept f l = Except.ok ys →
      ∀ y ∈ ys, ∃ a ∈ l, f a = Except.ok y := by
  intro l
  induction l with
  | nil =>
    intro ys h y hy
    simp only [mapExcept, Except.ok.injEq] at h
    subst h
    simp at hy
  | cons x l ih =>
    intro ys h y hy
    cases hfx : f x with
    | error e => simp [mapExcept, hfx] at h
    | ok b =>
      cases hml : mapExcept f l with
      | error e => simp [mapExcept, hfx, hml] at h
      | ok bs =>
        simp only [mapExcept, hfx, hml, Except.ok.injEq] at h
        subst h
        rcases List.mem_cons.mp hy with hyb | hybs
        · exact ⟨x, List.mem_cons_self x l, by rw [hfx, hyb]⟩
        · obtain ⟨a, hal, hfa⟩ := ih bs hml y hybs
          exact ⟨a, List.mem_cons_of_mem x hal, hfa⟩

theorem mapExcept_error_of_mem {ε α β : Type} (f : α → Except ε β) :
    ∀ (l : List α) (a : α), a ∈ l → (∀ b, f a ≠ Except.ok b) →
      ∃ e, mapExcept f l = Except.error e := by
  intro l
  induction l with
  | nil =>
    intro a ha
    simp at ha
  | cons x l ih =>
    intro a ha hfa
    rcases List.mem_cons.mp ha with hax | hal
    · subst hax
      cases hfx : f a with
      | error e => exact ⟨e, by simp [mapExcept, hfx]⟩
      | ok b => exact absurd hfx (hfa b)
    · cases hfx : f x with
      | error e => exact ⟨e, by simp [mapExcept, hfx]⟩
      | ok b =>
        obtain ⟨e, he⟩ := ih a hal hfa
        exact ⟨e, by simp [mapExcept, hfx, he]⟩

theorem mapExcept_congr {ε α β : Type} (f g : α → Except ε β) :
    ∀ (l : List α), (∀ a ∈ l, f a = g a) → mapExcept f l = mapExcept g l := by
  intro l
  induction l with
  | nil => intro _; rfl
  | cons x l ih =>
    intro h
    simp only [mapExcept, h x (List.mem_cons_self x l),
      ih fun a ha => h a (List.mem_cons_of_mem x ha)]

/-! Helper lemmas about list indexing. -/

theorem getD_map {α β : Type} (f : α → β) :
    ∀ (l : List α) (i : ℕ), i < l.length → ∀ (d : β) (a : α),
      (l.map f).getD i d = f (l.getD i a) := by
  intro l
  induction l with
  | nil => intro i hi; simp at hi
  | cons x l ih =>
    intro i hi d a
    cases i with
    | zero => simp
    | succ n =>
      simp only [List.map_cons, List.getD_cons_succ]
      exact ih n (Nat.lt_of_succ_lt_succ hi) d a

/-! Helper lemmas about `idxOfMax`. -/

theorem idxOfMax_lt :
    ∀ (l : List ℝ), l ≠ [] → idxOfMax l < l.length := by
  intro l
  induction l with
  | nil => intro h; exact absurd rfl h
  | cons a tail ih =>
    intro _
    cases tail with
    | nil => simp [idxOfMax]
    | cons b rest =>
      have htail : idxOfMax (b :: rest) < (b :: rest).length := ih (by simp)
      by_cases hc : (b :: rest).getD (idxOfMax (b :: rest)) 0 ≤ a
      · simp only [idxOfMax, if_pos hc, List.length_cons]
        omega
      · simp only [idxOfMax, if_neg hc, List.length_cons]
        exact Nat.succ_lt_succ htail

theorem getD_le_idxOfMax :
    ∀ (l : List ℝ) (k : ℕ), k < l.length →
      l.getD k 0 ≤ l.getD (idxOfMax l) 0 := by
  intro l
  induction l with
  | nil => intro k hk; simp at hk
  | cons a tail ih =>
    intro k hk
    cases tail with
    | nil =>
      cases k with
      | zero => simp [idxOfMax]
      | succ n => simp at hk
    | cons b rest =>
      by_cases hc : (b :: rest).getD (idxOfMax (b :: rest)) 0 ≤ a
      · simp only [idxOfMax, if_pos hc, List.getD_cons_zero]
        cases k with
        | zero => simp
        | succ n =>
          simp only [List.getD_cons_succ]
          exact le_trans (ih n (Nat.lt_of_succ_lt_succ hk)) hc
      · simp only [idxOfMax, if_neg hc, List.getD_cons_succ]
        cases k with
        | zero => simpa using (not_le.mp hc).le
        | succ n =>
          simp only [List.getD_cons_succ]
          exact ih n (Nat.lt_of_succ_lt_succ hk)

/-! Helper lemmas about `softmax`. -/

theorem softmax_length (xs : List ℝ) : (softmax xs).length = xs.length := by
  simp [softmax]

theorem sum_map_div (g : ℝ → ℝ) (c : ℝ) :
    ∀ (l : List ℝ), (l.map (fun x => g x / c)).sum = (l.map g).sum / c := by
  intro l
  induction l with
  | nil => simp
  | cons a l ih => simp [ih, div_add_div_same]

theorem exp_sum_pos (xs : List ℝ) (h : xs ≠ []) :
    0 < (xs.map Real.exp).sum := by
  cases xs with
  | nil => exact absurd rfl h
  | cons a l =>
    simp only [List.map_cons, List.sum_cons]
    exact add_pos_of_pos_of_nonneg (Real.exp_pos a)
      (List.sum_nonneg fun x hx => by
        obtain ⟨y, _, hy⟩ := List.mem_map.mp hx
        exact hy ▸ (Real.exp_pos y).le)

theorem softmax_sum (xs : List ℝ) (h : xs ≠ []) : (softmax xs).sum = 1 := by
  simp only [softmax]
  rw [sum_map_div]
  exact div_self (ne_of_gt (exp_sum_pos xs h))

theorem softmax_getD (xs : List ℝ) (i : ℕ) (hi : i < xs.length) :
    (softmax xs).getD i 0 =
      Real.exp (xs.getD i 0) / (xs.map Real.exp).sum := by
  simpa [softmax] using
    getD_map (fun x => Real.exp x / (xs.map Real.exp).sum) xs i hi 0 0

/-! Concrete objects used by witnesses and counterexamples. -/

/-- A constant text encoder mapping every string to the all-ones vector. -/
noncomputable def enc1 : String → EVec 1 := fun _ => fun _ => 1

/-- The all-ones vector in dimension 1. -/
noncomputable def oneVec : EVec 1 := fun _ => 1

/-- A single black 1-by-1 frame. -/
def img0 : Img 1 1 := fun _ _ => (0, 0, 0)

/-- A 1-by-2 frame whose two pixels differ, so a horizontal flip changes it. -/
def imgLR : Img 1 2 := fun _ c => (c.val, 0, 0)

/-- An image encoder that always fails (the encoder collaborator is
unreachable for every frame). -/
def failEnc : Img 1 1 → Except EncodeError (EVec 1) :=
  fun _ => Except.error EncodeError.embeddingUnavailable

/-- A one-column label embedding matrix. -/
noncomputable def W1 : List (EVec 1) := [oneVec]

theorem one_vec_ne_zero : oneVec ≠ 0 := by
  intro h
  have h0 := congrFun h 0
  norm_num [oneVec] at h0

theorem l2norm_oneVec : l2norm oneVec = 1 := by
  simp [l2norm, oneVec]

theorem normalize_oneVec : normalize oneVec = oneVec := by
  funext i
  simp [normalize, l2norm_oneVec, oneVec]

theorem vecMean_single {d : ℕ} (v : EVec d) : vecMean [v] = v := by
  funext i
  simp [vecMean]

/-- Membership of an in-bounds `getD` access. -/
theorem getD_mem {α : Type} :
    ∀ (l : List α) (i : ℕ), i < l.length → ∀ d : α, l.getD i d ∈ l := by
  intro l
  induction l with
  | nil => intro i hi; simp at hi
  | cons x l ih =>
    intro i hi d
    cases i with
    | zero => simp
    | succ n => exact List.mem_cons_of_mem x (ih n (Nat.lt_of_succ_lt_succ hi) d)

/-! Claim theorems. -/

/-- Claim C8: if the video source signals end-of-stream immediately (the
frame list is empty), both stream loops terminate cleanly with zero frames
processed, zero classifier invocations, and no failure: the sentinel is an
exit condition, not an error. -/
theorem claim_C8 (d h w : ℕ) (encode : Img h w → Except EncodeError (EVec d))
    (W : List (EVec d)) :
    webcamLoop encode W [] = ⟨[], 0, none⟩ ∧
    videoLoop encode W [] = ⟨[], 0, none⟩ :=
  ⟨rfl, rfl⟩

/-- Claim C10: the webcam loop and the prerecorded-video loop apply the
same per-frame classification function, so the webcam loop on a frame
sequence behaves exactly as the video loop on the horizontally flipped
sequence; and a horizontal flip genuinely changes a frame whose columns
differ, so on the same raw frame the image actually classified differs
between the loops by a horizontal flip. -/
theorem claim_C10 (d h w : ℕ) (encode : Img h w → Except EncodeError (EVec d))
    (W : List (EVec d)) (frames : List (Img h w)) :
    webcamLoop encode W frames = videoLoop encode W (frames.map hflip) ∧
    hflip imgLR ≠ imgLR := by
  constructor
  · induction frames with
    | nil => rfl
    | cons f rest ih =>
      simp only [webcamLoop, videoLoop] at ih ⊢
      simp only [List.map_cons, runStreamLoop]
      cases frameStep encode W (hflip f) with
      | error e => rfl
      | ok r => rw [ih]
  · decide

/-- Claim C4 is false on the code: the notebook's webcam loop has no
per-frame exception handler, so a single-frame encoding failure aborts the
loop. Concretely, with an encoder that fails on the first of two frames,
the loop terminates after one classification attempt with the failure
propagated and zero frames processed — the second frame is never reached,
contradicting skip-and-continue. -/
theorem claim_C4_counterexample :
    webcamLoop failEnc W1 [img0, img0] =
      ⟨[], 1, some EncodeError.embeddingUnavailable⟩ ∧
    (webcamLoop failEnc W1 [img0, img0]).failure ≠ none :=
  ⟨rfl, fun h => Option.noConfusion h⟩

/-- Claim C4 (amended): if image encoding raises for a frame, the failure
propagates and terminates the stream loop at that frame: no later frame is
processed, the frame is attempted exactly once (no retry), and the loop
reports the failure. This holds for both the webcam loop (which encodes
the flipped frame) and the prerecorded-video loop. -/
theorem claim_C4_amended (d h w : ℕ)
    (encode : Img h w → Except EncodeError (EVec d)) (W : List (EVec d))
    (f : Img h w) (rest : List (Img h w)) (e : EncodeError) :
    (encode (hflip f) = Except.error e →
      webcamLoop encode W (f :: rest) = ⟨[], 1, some e⟩) ∧
    (encode f = Except.error e →
      videoLoop encode W (f :: rest) = ⟨[], 1, some e⟩) := by
  constructor
  · intro hf
    simp only [webcamLoop, runStreamLoop, frameStep, hf, Except.map]
  · intro hf
    simp only [videoLoop, runStreamLoop, frameStep, hf, Except.map]

theorem claim_C4_witness :
    videoLoop failEnc W1 [img0] =
      ⟨[], 1, some EncodeError.embeddingUnavailable⟩ :=
  (claim_C4_amended 1 1 1 failEnc W1 img0 []
    EncodeError.embeddingUnavailable).2 rfl

/-- Claim C7 is false on the code: `template.format(classname)` with a
zero-slot template succeeds silently in Python (the argument is ignored),
so the builder does not fail when a template lacks a substitution slot.
Concretely, with the slotless template "hello" the builder returns a
matrix (built from the unsubstituted template text) and signals no error. -/
theorem claim_C7_counterexample :
    slotCount ["hello"] = 0 ∧
    zeroshot_classifier enc1 ["x"] [["hello"]] =
      Except.ok [classEmbedding enc1 ["hello"]] :=
  ⟨rfl, rfl⟩

/-- Every format error is the index error. -/
theorem formatError_eq (e : FormatError) : e = FormatError.indexError := by
  cases e
  rfl

/-- A template with two or more slots makes `format` raise. -/
theorem pyFormat_error_of_slots (t : Template) (arg : String)
    (hslots : 2 ≤ slotCount t) :
    pyFormat t arg = Except.error FormatError.indexError := by
  match t with
  | [] => simp [slotCount] at hslots
  | [s] => simp [slotCount] at hslots
  | [s₁, s₂] => simp [slotCount] at hslots
  | a :: b :: c :: r => rfl

/-- Claim C7 (amended): the builder does fail fatally at startup — with the
formatter's index error, uncaught — whenever some template has two or more
substitution slots (and there is at least one label to render); but a
template with zero slots is accepted silently and rendered unchanged, so
"lacks exactly one slot" only aborts in the more-than-one-slot direction. -/
theorem claim_C7_amended (d : ℕ) (encode_text : String → EVec d)
    (classnames : List String) (templates : List Template)
    (hcs : classnames ≠ []) (t : Template) (ht : t ∈ templates)
    (hslots : 2 ≤ slotCount t) :
    zeroshot_classifier encode_text classnames templates =
      Except.error FormatError.indexError := by
  obtain ⟨c, cs, rfl⟩ := List.exists_cons_of_ne_nil hcs
  have hrender : ∃ e, renderAll templates c = Except.error e := by
    refine mapExcept_error_of_mem _ templates t ht fun b hb => ?_
    rw [pyFormat_error_of_slots t c hslots] at hb
    exact Except.noConfusion hb
  obtain ⟨e, he⟩ := hrender
  have hbuild : buildOne encode_text templates c =
      Except.error FormatError.indexError := by
    rw [buildOne, he, formatError_eq e]
    rfl
  have hrun : ∃ e₂, mapExcept (buildOne encode_text templates) (c :: cs) =
      Except.error e₂ := by
    refine mapExcept_error_of_mem _ _ c (List.mem_cons_self c cs) fun b hb => ?_
    rw [hbuild] at hb
    exact Except.noConfusion hb
  obtain ⟨e₂, he₂⟩ := hrun
  rw [zeroshot_classifier, he₂, formatError_eq e₂]

theorem claim_C7_witness :
    zeroshot_classifier enc1 ["x"] [["a", "b", "c"]] =
      Except.error FormatError.indexError :=
  claim_C7_amended 1 enc1 ["x"] [["a", "b", "c"]]
    (List.cons_ne_nil "x" []) ["a", "b", "c"] (List.mem_singleton.mpr rfl)
    (by decide)

/-- Claim C1: when the builder succeeds, it produces one column per label
(in label order), and column i is the unit-L2-normalization of the
elementwise mean of the T individually unit-L2-normalized text embeddings
of the T templates rendered with label i: each raw embedding is normalized
first, then the mean over the T normalized vectors is taken, then the mean
is normalized again. -/
theorem claim_C1 (d : ℕ) (encode_text : String → EVec d)
    (classnames : List String) (templates : List Template)
    (W : List (EVec d))
    (hok : zeroshot_classifier encode_text classnames templates =
      Except.ok W)
    (i : ℕ) (hi : i < classnames.length) :
    W.length = classnames.length ∧
    ∃ ts : List String,
      renderAll templates (classnames.getD i "") = Except.ok ts ∧
      ts.length = templates.length ∧
      W.getD i 0 =
        normalize (vecMean (ts.map (fun s => normalize (encode_text s)))) := by
  refine ⟨mapExcept_ok_length _ _ _ hok, ?_⟩
  have hbuild := mapExcept_ok_getD _ _ _ hok i hi "" 0
  cases hrender : renderAll templates (classnames.getD i "") with
  | error e =>
    rw [buildOne, hrender] at hbuild
    exact Except.noConfusion hbuild
  | ok ts =>
    rw [buildOne, hrender] at hbuild
    refine ⟨ts, rfl, mapExcept_ok_length _ _ _ hrender, ?_⟩
    have hcol : classEmbedding encode_text ts = W.getD i 0 :=
      Except.ok.inj hbuild
    rw [← hcol]
    rfl

theorem claim_C1_witness :
    ([classEmbedding enc1 ["hello"]] : List (EVec 1)).length =
      (["x"] : List String).length ∧
    ∃ ts : List String,
      renderAll [["hello"]] ((["x"] : List String).getD 0 "") =
        Except.ok ts ∧
      ts.length = ([["hello"]] : List Template).length ∧
      ([classEmbedding enc1 ["hello"]] : List (EVec 1)).getD 0 0 =
        normalize (vecMean (ts.map (fun s => normalize (enc1 s)))) :=
  claim_C1 1 enc1 ["x"] [["hello"]] [classEmbedding enc1 ["hello"]] rfl 0
    (by decide)

/-- Claim C2: per frame, the classifier softmaxes the dot products of the
normalized image embedding with every column, scaled by the fixed
temperature 100; the resulting distribution has one entry per column of
the label matrix and sums to exactly 1 (over the reals), and the returned
top label is an in-range index of a maximum of the distribution, returned
together with that maximal probability. -/
theorem claim_C2 (d : ℕ) (encode_text : String → EVec d)
    (classnames : List String) (templates : List Template)
    (W : List (EVec d)) (imageFeatures : EVec d)
    (hok : zeroshot_classifier encode_text classnames templates =
      Except.ok W)
    (hW : W ≠ []) (k : ℕ)
    (hk : k < (frameProbabilities W imageFeatures).length) :
    (frameProbabilities W imageFeatures).length = classnames.length ∧
    (frameProbabilities W imageFeatures).sum = 1 ∧
    (classifyCore W imageFeatures).1 <
      (frameProbabilities W imageFeatures).length ∧
    (frameProbabilities W imageFeatures).getD k 0 ≤
      (frameProbabilities W imageFeatures).getD
        (classifyCore W imageFeatures).1 0 ∧
    (classifyCore W imageFeatures).2 =
      (frameProbabilities W imageFeatures).getD
        (classifyCore W imageFeatures).1 0 := by
  have hscores : W.map
      (fun w => 100 * dotp (normalize imageFeatures) w) ≠ [] := by
    intro hnil
    exact hW (List.map_eq_nil_iff.mp hnil)
  have hne : frameProbabilities W imageFeatures ≠ [] := by
    intro hnil
    rw [frameProbabilities, softmax] at hnil
    exact hscores (List.map_eq_nil_iff.mp hnil)
  refine ⟨?_, ?_, ?_, ?_, rfl⟩
  · rw [show (frameProbabilities W imageFeatures).length = W.length by
      simp [frameProbabilities, softmax_length]]
    exact mapExcept_ok_length _ _ _ hok
  · exact softmax_sum _ hscores
  · exact idxOfMax_lt _ hne
  · exact getD_le_idxOfMax _ k hk

theorem claim_C2_witness :
    (frameProbabilities [classEmbedding enc1 ["hello"]] oneVec).length =
      (["x"] : List String).length ∧
    (frameProbabilities [classEmbedding enc1 ["hello"]] oneVec).sum = 1 ∧
    (classifyCore [classEmbedding enc1 ["hello"]] oneVec).1 <
      (frameProbabilities [classEmbedding enc1 ["hello"]] oneVec).length ∧
    (frameProbabilities [classEmbedding enc1 ["hello"]] oneVec).getD 0 0 ≤
      (frameProbabilities [classEmbedding enc1 ["hello"]] oneVec).getD
        (classifyCore [classEmbedding enc1 ["hello"]] oneVec).1 0 ∧
    (classifyCore [classEmbedding enc1 ["hello"]] oneVec).2 =
      (frameProbabilities [classEmbedding enc1 ["hello"]] oneVec).getD
        (classifyCore [classEmbedding enc1 ["hello"]] oneVec).1 0 :=
  claim_C2 1 enc1 ["x"] [["hello"]] [classEmbedding enc1 ["hello"]] oneVec
    rfl (List.cons_ne_nil _ []) 0 (by simp [frameProbabilities, softmax])

/-- Claim C3: every embedding has unit L2 norm immediately before it is
used in similarity scoring, under the nondegeneracy preconditions the
division-based normalization needs (the code divides by the norm with no
guard): provided the per-label ensemble means are nonzero and the raw
image embedding is nonzero, every column of the constructed label matrix
and the normalized image embedding dotted against the columns have L2 norm
exactly 1. -/
theorem claim_C3 (d : ℕ) (encode_text : String → EVec d)
    (classnames : List String) (templates : List Template)
    (W : List (EVec d)) (imageFeatures : EVec d)
    (hok : zeroshot_classifier encode_text classnames templates =
      Except.ok W)
    (hmean : ∀ c ∈ classnames, ∀ ts : List String,
      renderAll templates c = Except.ok ts →
      vecMean (ts.map (fun s => normalize (encode_text s))) ≠ 0)
    (himg : imageFeatures ≠ 0)
    (i : ℕ) (hi : i < W.length) :
    l2norm (W.getD i 0) = 1 ∧ l2norm (normalize imageFeatures) = 1 := by
  refine ⟨?_, l2norm_normalize himg⟩
  have hlen := mapExcept_ok_length _ _ _ hok
  have hic : i < classnames.length := hlen ▸ hi
  have hbuild := mapExcept_ok_getD _ _ _ hok i hic "" 0
  cases hrender : renderAll templates (classnames.getD i "") with
  | error e =>
    rw [buildOne, hrender] at hbuild
    exact Except.noConfusion hbuild
  | ok ts =>
    rw [buildOne, hrender] at hbuild
    have hcol : classEmbedding encode_text ts = W.getD i 0 :=
      Except.ok.inj hbuild
    have hme := hmean (classnames.getD i "") (getD_mem classnames i hic "")
      ts hrender
    rw [← hcol, classEmbedding]
    exact l2norm_normalize hme

theorem claim_C3_witness :
    l2norm (([classEmbedding enc1 ["hello"]] : List (EVec 1)).getD 0 0) = 1 ∧
    l2norm (normalize oneVec) = 1 := by
  refine claim_C3 1 enc1 ["x"] [["hello"]] [classEmbedding enc1 ["hello"]]
    oneVec rfl ?_ one_vec_ne_zero 0 (by decide)
  intro c hc ts hts
  have hc2 : c = "x" := List.mem_singleton.mp hc
  subst hc2
  have hts2 : ts = ["hello"] := (Except.ok.inj hts).symm
  subst hts2
  intro h0
  have h1 : vecMean [normalize oneVec] = 0 := h0
  rw [normalize_oneVec, vecMean_single] at h1
  exact one_vec_ne_zero h1

/-- Sequential effectful mapping respects permutations of the input list:
either both runs abort with an exception, or both succeed and the outputs
are permutations of each other. -/
theorem mapExcept_perm {ε α β : Type} (f : α → Except ε β)
    {l l2 : List α} (h : l.Perm l2) :
    (∃ e e2, mapExcept f l = Except.error e ∧
      mapExcept f l2 = Except.error e2) ∨
    (∃ ys ys2, mapExcept f l = Except.ok ys ∧
      mapExcept f l2 = Except.ok ys2 ∧ ys.Perm ys2) := by
  induction h with
  | nil => exact Or.inr ⟨[], [], rfl, rfl, List.Perm.nil⟩
  | cons x h ih =>
    cases hfx : f x with
    | error e =>
      exact Or.inl ⟨e, e, by simp [mapExcept, hfx], by simp [mapExcept, hfx]⟩
    | ok b =>
      rcases ih with ⟨e, e2, h1, h2⟩ | ⟨ys, ys2, h1, h2, hp⟩
      · exact Or.inl ⟨e, e2, by simp [mapExcept, hfx, h1],
          by simp [mapExcept, hfx, h2]⟩
      · exact Or.inr ⟨b :: ys, b :: ys2, by simp [mapExcept, hfx, h1],
          by simp [mapExcept, hfx, h2], List.Perm.cons b hp⟩
  | swap x y l =>
    cases hfx : f x with
    | error e =>
      cases hfy : f y with
      | error e2 =>
        exact Or.inl ⟨e2, e, by simp [mapExcept, hfy],
          by simp [mapExcept, hfx]⟩
      | ok bb =>
        exact Or.inl ⟨e, e, by simp [mapExcept, hfy, hfx],
          by simp [mapExcept, hfx]⟩
    | ok bx =>
      cases hfy : f y with
      | error e2 =>
        exact Or.inl ⟨e2, e2, by simp [mapExcept, hfy],
          by simp [mapExcept, hfx, hfy]⟩
      | ok bb =>
        cases hml : mapExcept f l with
        | error e =>
          exact Or.inl ⟨e, e, by simp [mapExcept, hfy, hfx, hml],
            by simp [mapExcept, hfx, hfy, hml]⟩
        | ok ys =>
          exact Or.inr ⟨bb :: bx :: ys, bx :: bb :: ys,
            by simp [mapExcept, hfy, hfx, hml],
            by simp [mapExcept, hfx, hfy, hml],
            List.Perm.swap bx bb ys⟩
  | trans h1 h2 ih1 ih2 =>
    rcases ih1 with ⟨e, e2, ha, hb⟩ | ⟨ys, ys2, ha, hb, hp⟩
    · rcases ih2 with ⟨e3, e4, hc, hd⟩ | ⟨zs, zs2, hc, hd, hq⟩
      · exact Or.inl ⟨e, e4, ha, hd⟩
      · rw [hb] at hc
        exact Except.noConfusion hc
    · rcases ih2 with ⟨e3, e4, hc, hd⟩ | ⟨zs, zs2, hc, hd, hq⟩
      · rw [hb] at hc
        exact Except.noConfusion hc
      · rw [hb] at hc
        have hz : ys2 = zs := Except.ok.inj hc
        exact Or.inr ⟨ys, zs2, ha, hd, hp.trans (hz ▸ hq)⟩

theorem vecMean_perm {d : ℕ} {vs vs2 : List (EVec d)} (h : vs.Perm vs2) :
    vecMean vs = vecMean vs2 := by
  funext i
  rw [vecMean, vecMean]
  rw [(h.map (fun v => v i)).sum_eq, h.length_eq]

theorem classEmbedding_perm {d : ℕ} (encode_text : String → EVec d)
    {ts ts2 : List String} (h : ts.Perm ts2) :
    classEmbedding encode_text ts = classEmbedding encode_text ts2 := by
  rw [classEmbedding, classEmbedding,
    vecMean_perm (h.map (fun s => normalize (encode_text s)))]

theorem buildOne_perm {d : ℕ} (encode_text : String → EVec d)
    {tl tl2 : List Template} (h : tl.Perm tl2) (c : String) :
    buildOne encode_text tl c = buildOne encode_text tl2 c := by
  rcases mapExcept_perm (fun t => pyFormat t c) h with
    ⟨e, e2, h1, h2⟩ | ⟨ys, ys2, h1, h2, hp⟩
  · rw [buildOne, buildOne, renderAll, renderAll, h1, h2,
      formatError_eq e, formatError_eq e2]
  · rw [buildOne, buildOne, renderAll, renderAll, h1, h2]
    simp only [Except.map]
    rw [classEmbedding_perm encode_text hp]

/-- Claim C6: permuting the order of the templates does not change any
label embedding the builder produces (nor its failure behavior): the
ensemble mean is order-invariant, so the whole builder output is unchanged
under a permutation of the template list. -/
theorem claim_C6 (d : ℕ) (encode_text : String → EVec d)
    (classnames : List String) (templates templates2 : List Template)
    (hperm : templates.Perm templates2) :
    zeroshot_classifier encode_text classnames templates =
      zeroshot_classifier encode_text classnames templates2 := by
  rw [zeroshot_classifier, zeroshot_classifier]
  exact mapExcept_congr _ _ classnames
    fun c _ => buildOne_perm encode_text hperm c

theorem claim_C6_witness :
    zeroshot_classifier enc1 ["x"] [["a", ""], ["b", ""]] =
      zeroshot_classifier enc1 ["x"] [["b", ""], ["a", ""]] :=
  claim_C6 1 enc1 ["x"] [["a", ""], ["b", ""]] [["b", ""], ["a", ""]]
    (List.Perm.swap ["b", ""] ["a", ""] [])

/-- The all-minus-ones vector in dimension 1. -/
noncomputable def negOneVec : EVec 1 := fun _ => -1

/-- A degenerate but valid text encoder sending the text "A" to the
all-ones vector and every other text to its negation, so that the two
normalized template embeddings of one label average to the zero vector. -/
noncomputable def degEnc : String → EVec 1 := fun s =>
  if s = "A" then oneVec else negOneVec

theorem degEnc_A : degEnc "A" = oneVec := by
  simp [degEnc]

theorem degEnc_B : degEnc "B" = negOneVec := by
  simp only [degEnc]
  rw [if_neg (by decide)]

theorem l2norm_negOneVec : l2norm negOneVec = 1 := by
  simp [l2norm, negOneVec]

theorem normalize_negOneVec : normalize negOneVec = negOneVec := by
  funext i
  simp [normalize, l2norm_negOneVec]

theorem normalize_zero_vec {d : ℕ} : normalize (0 : EVec d) = 0 := by
  funext i
  simp [normalize]

/-- Claim C9: the builder's final normalization divides by the L2 norm of
the ensembled mean with no guard against zero: whenever that mean is
nonzero the resulting column has unit norm, but with an encoder for which
the normalized template embeddings of a label average to the zero vector,
the builder still succeeds (no error is signaled) and the resulting column
is the zero vector, whose norm is 0 and not 1 — the unit-norm
postcondition holds only under the nonzero-mean precondition. -/
theorem claim_C9 :
    (∀ (d : ℕ) (v : EVec d), v ≠ 0 → l2norm (normalize v) = 1) ∧
    zeroshot_classifier degEnc ["x"] [["A"], ["B"]] =
      Except.ok [normalize (vecMean
        [normalize (degEnc "A"), normalize (degEnc "B")])] ∧
    vecMean [normalize (degEnc "A"), normalize (degEnc "B")] = 0 ∧
    l2norm (normalize (vecMean
      [normalize (degEnc "A"), normalize (degEnc "B")])) = 0 ∧
    l2norm (normalize (vecMean
      [normalize (degEnc "A"), normalize (degEnc "B")])) ≠ 1 := by
  have hmean : vecMean [normalize (degEnc "A"), normalize (degEnc "B")] =
      0 := by
    rw [degEnc_A, degEnc_B, normalize_oneVec, normalize_negOneVec]
    funext i
    simp [vecMean, oneVec, negOneVec]
  refine ⟨fun d v hv => l2norm_normalize hv, rfl, hmean, ?_, ?_⟩
  · rw [hmean, normalize_zero_vec, l2norm_zero_vec]
  · rw [hmean, normalize_zero_vec, l2norm_zero_vec]
    norm_num

theorem claim_C9_witness : l2norm (normalize oneVec) = 1 :=
  claim_C9.1 1 oneVec one_vec_ne_zero

end ZeroShot
